import Mathlib

/-!
Shallow embedding of `src/keystore.py` (DynamoDB-backed key-value store client).

The remote DynamoDB service is modelled as an association list from complete
(backing) table names to lists of stored items.  Each client operation of the
`DynamoDbTable` class is translated into a Lean function that threads this
store explicitly.  Remote-service failures (e.g. put/query against a table
that does not exist) are modelled with `Except`; Python exceptions raised
locally (IndexError from `row[i]`, ValueError from `strptime`) likewise.
The current wall-clock timestamp computed inside `put_item_into_table`
(lines 153-158) is passed in as an explicit `now : String` parameter.
-/

namespace Keystore

/-- A stored DynamoDB item: partition key `key`, sort key `datetime`,
and the payload `value` (nested under `info.value` in the real item). -/
structure Item where
  key : String
  datetime : String
  value : String
deriving DecidableEq, Repr

/-- The remote DynamoDB state: complete table name ↦ stored items. -/
abbrev Store := List (String × List Item)

/-- Errors surfaced by the embedded operations: `resourceNotFound` is the
remote service rejecting an operation on an absent table; `valueError` and
`indexError` are the local Python exceptions from `strptime` and `row[i]`. -/
inductive KsError where
  | resourceNotFound
  | valueError
  | indexError
deriving DecidableEq, Repr

/-- Python `s.endswith(suffix)`. -/
def pyEndsWith (s sfx : String) : Bool :=
  sfx.data.isSuffixOf s.data

/-- Python `s.lower()` (ASCII letters, which is all the code relies on). -/
def pyLower (s : String) : String :=
  ⟨s.data.map Char.toLower⟩

/-- `DynamoDbTable.get_complete_name` (keystore.py lines 61-65): append the
environment suffix unless the name already ends with it. -/
def get_complete_name (sfx tableName : String) : String :=
  if pyEndsWith tableName sfx then tableName else tableName ++ sfx

/-- A boto3 `Table` resource handle: it records the table name only. -/
structure TableHandle where
  name : String
deriving DecidableEq, Repr

/-- `DynamoDbTable.get_table_resource` (lines 67-70): boto3's
`resource.Table(name)` builds a lazy handle, performing no remote call and
no existence check. -/
def get_table_resource (sfx tableName : String) : TableHandle :=
  ⟨get_complete_name sfx tableName⟩

/-- Python truthiness of a boto3 `Table` object: the class defines neither
`__bool__` nor `__len__`, so `if table:` always takes the then-branch. -/
def truthy (_ : TableHandle) : Bool :=
  true

/-- The names of the tables existing in the remote store
(`db.tables.all()`, line 75). -/
def tableNames (s : Store) : List String :=
  s.map Prod.fst

/-- Look up a table's items in the remote store. -/
def lookupTable (s : Store) (n : String) : Option (List Item) :=
  (s.find? (fun p => decide (p.1 = n))).map Prod.snd

/-- DynamoDB `PutItem`: the `(key, datetime)` pair is the primary key, so an
item with the same pair is replaced. -/
def tablePut (t : List Item) (it : Item) : List Item :=
  it :: t.filter (fun x => decide (¬(x.key = it.key ∧ x.datetime = it.datetime)))

/-- Remote put: errors when the table does not exist
(`ResourceNotFoundException`). -/
def storePut (s : Store) (n : String) (it : Item) : Option Store :=
  if n ∈ tableNames s then
    some (s.map (fun p => if p.1 = n then (p.1, tablePut p.2 it) else p))
  else
    none

/-- Remote `CreateTable`: a fresh empty table. -/
def storeCreate (s : Store) (n : String) : Store :=
  s ++ [(n, [])]

/-- Remote `DeleteTable`. -/
def storeDelete (s : Store) (n : String) : Store :=
  s.filter (fun p => decide (¬p.1 = n))

/-- DynamoDB query order with `ScanIndexForward=False`: items sorted by the
`datetime` sort key, descending (lexical string comparison). -/
def sortDesc (l : List Item) : List Item :=
  l.mergeSort (fun a b => decide (b.datetime ≤ a.datetime))

/-- Remote query with `KeyConditionExpression=Key('key').eq(k)`,
descending. -/
def ddbQueryKey (s : Store) (n k : String) : Except KsError (List Item) :=
  match lookupTable s n with
  | none => .error .resourceNotFound
  | some t => .ok (sortDesc (t.filter (fun it => decide (it.key = k))))

/-- Remote query with `Key('key').eq(k) & Key('datetime').gte(floor)`,
descending. -/
def ddbQueryKeyGte (s : Store) (n k floor : String) :
    Except KsError (List Item) :=
  match lookupTable s n with
  | none => .error .resourceNotFound
  | some t =>
      .ok (sortDesc (t.filter (fun it =>
        decide (it.key = k ∧ floor ≤ it.datetime))))

/-- `DynamoDbTable.if_table_exists` (lines 72-76): membership of the
complete name in the list of all existing table names. -/
def if_table_exists (sfx : String) (s : Store) (tableName : String) : Bool :=
  decide (get_complete_name sfx tableName ∈ tableNames s)

/-- `DynamoDbTable.delete_table` (lines 88-97). -/
def delete_table (sfx : String) (s : Store) (tableName : String) : Store :=
  let complete := get_complete_name sfx tableName
  if if_table_exists sfx s tableName then storeDelete s complete else s

/-- `DynamoDbTable.create_table` (lines 99-144): the supplied name is
lowercased (line 100) before the suffix is resolved. -/
def create_table (sfx : String) (s : Store) (tableName : String) : Store :=
  let tableNameLow := pyLower tableName
  let complete := get_complete_name sfx tableNameLow
  if if_table_exists sfx s tableNameLow then s else storeCreate s complete

/-- `DynamoDbTable.put_item_into_table` (lines 146-175): the supplied name is
lowercased (line 147); `now` is the ISO-8601 timestamp computed at lines
153-158.  Returns the write acknowledgment (`some ()`) on success; the
`else` branch (line 174-175) would return Python `None`, modelled `none`. -/
def put_item_into_table (sfx : String) (s : Store)
    (tableName k v now : String) : Except KsError (Store × Option Unit) :=
  let tableNameLow := pyLower tableName
  let complete := get_complete_name sfx tableNameLow
  let table := get_table_resource sfx complete
  if truthy table then
    match storePut s table.name ⟨k, now, v⟩ with
    | some s2 => .ok (s2, some ())
    | none => .error .resourceNotFound
  else
    .ok (s, none)

/-- `DynamoDbTable.get_latest_item_value` (lines 177-196): query by key,
descending, `Limit=1`; return `Items[0].info.value`, or `None` when the
count is zero. -/
def get_latest_item_value (sfx : String) (s : Store) (tableName k : String) :
    Except KsError (Option String) :=
  let complete := get_complete_name sfx tableName
  let table := get_table_resource sfx complete
  if truthy table then
    match ddbQueryKey s table.name k with
    | .error e => .error e
    | .ok items =>
        match items.take 1 with
        | [] => .ok none
        | first :: _ => .ok (some first.value)
  else
    .ok none

/-- Day count of a month, with the Gregorian leap rule, as validated by
Python's `datetime` constructor. -/
def daysInMonth (y m : Nat) : Nat :=
  if m == 2 then
    if (y % 4 == 0 && y % 100 != 0) || y % 400 == 0 then 29 else 28
  else if m == 4 || m == 6 || m == 9 || m == 11 then 30
  else 31

/-- Numeric value of a decimal digit character. -/
def digitVal (c : Char) : Nat :=
  c.toNat - 48

/-- The ordered alternatives of the `%m` pattern of `_strptime`,
`(1[0-2]|0[1-9]|[1-9])`: each candidate is the parsed month with the
remaining input, in the order the regex engine tries them. -/
def monthCands : List Char → List (Nat × List Char)
  | [] => []
  | c1 :: rest1 =>
      (match rest1 with
       | c2 :: rest2 =>
           (if c1 == '1' && ('0' ≤ c2 && c2 ≤ '2') then
             [(10 + digitVal c2, rest2)] else []) ++
           (if c1 == '0' && ('1' ≤ c2 && c2 ≤ '9') then
             [(digitVal c2, rest2)] else [])
       | [] => []) ++
      (if '1' ≤ c1 && c1 ≤ '9' then [(digitVal c1, rest1)] else [])

/-- The ordered alternatives of the `%d` pattern of `_strptime`,
`(3[01]|[12]\d|0[1-9]|[1-9])`. -/
def dayCands : List Char → List (Nat × List Char)
  | [] => []
  | c1 :: rest1 =>
      (match rest1 with
       | c2 :: rest2 =>
           (if c1 == '3' && (c2 == '0' || c2 == '1') then
             [(30 + digitVal c2, rest2)] else []) ++
           (if ('1' ≤ c1 && c1 ≤ '2') && c2.isDigit then
             [(10 * digitVal c1 + digitVal c2, rest2)] else []) ++
           (if c1 == '0' && ('1' ≤ c2 && c2 ≤ '9') then
             [(digitVal c2, rest2)] else [])
       | [] => []) ++
      (if '1' ≤ c1 && c1 ≤ '9' then [(digitVal c1, rest1)] else [])

/-- The `%Y` pattern of `_strptime`: exactly four decimal digits. -/
def yearParse : List Char → Option (Nat × List Char)
  | a :: b :: c :: d :: rest =>
      if a.isDigit && b.isDigit && c.isDigit && d.isDigit then
        some (1000 * digitVal a + 100 * digitVal b + 10 * digitVal c
              + digitVal d, rest)
      else none
  | _ => none

/-- Backtracking match of `%m%d` against the input: the regex engine takes
the first month/day alternative pair that matches, in order; the unconsumed
remainder is returned. -/
def mdMatch (l : List Char) : Option (Nat × Nat × List Char) :=
  ((monthCands l).flatMap (fun mc =>
    (dayCands mc.2).map (fun dc => (mc.1, dc.1, dc.2)))).head?

/-- Python `datetime.strptime(s, "%Y%m%d")`: regex match of `%Y%m%d`, the
"unconverted data remains" check, then the range validation performed by the
`datetime` constructor (`MINYEAR = 1`, day within the month).  `none` models
the `ValueError` the call raises. -/
def strptimeYMD (s : String) : Option (Nat × Nat × Nat) :=
  match yearParse s.data with
  | none => none
  | some (y, r0) =>
      match mdMatch r0 with
      | none => none
      | some (m, d, r2) =>
          if r2.isEmpty then
            if 1 ≤ y && 1 ≤ d && d ≤ daysInMonth y m then some (y, m, d)
            else none
          else none

/-- Zero-pad a number to two digits (ISO-8601 month/day field). -/
def pad2 (n : Nat) : String :=
  if n < 10 then "0" ++ toString n else toString n

/-- Zero-pad a number to four digits (ISO-8601 year field). -/
def pad4 (n : Nat) : String :=
  if n < 10 then "000" ++ toString n
  else if n < 100 then "00" ++ toString n
  else if n < 1000 then "0" ++ toString n
  else toString n

/-- `datetime(y, m, d).isoformat()`: zero time-of-day, no timezone offset. -/
def isoOfYMD (y m d : Nat) : String :=
  pad4 y ++ "-" ++ pad2 m ++ "-" ++ pad2 d ++ "T00:00:00"

/-- `DynamoDbTable.get_items_greater_than_date` (lines 198-224): parse the
`yyyymmdd` argument (raising on failure), build the ISO floor, then query
`key = k AND datetime >= floor`, descending. -/
def get_items_greater_than_date (sfx : String) (s : Store)
    (tableName k yyyymmdd : String) : Except KsError (Option (List Item)) :=
  let complete := get_complete_name sfx tableName
  match strptimeYMD yyyymmdd with
  | none => .error .valueError
  | some (y, m, d) =>
      let floor := isoOfYMD y m d
      let table := get_table_resource sfx complete
      if truthy table then
        match ddbQueryKeyGte s table.name k floor with
        | .error e => .error e
        | .ok items => if items.isEmpty then .ok none else .ok (some items)
      else
        .ok none

/-- `DynamoDbTable.export_data_to_csv` (lines 255-290): query by key,
descending; on a non-empty result write a header row and then, for each `x`
in `range(count)`, the fields of `Items[0]` — the first item, every time.
The produced CSV contents (list of rows) stand for the written file. -/
def export_data_to_csv (sfx : String) (s : Store) (tableName k : String) :
    Except KsError (Option (List (List String))) :=
  let complete := get_complete_name sfx tableName
  let table := get_table_resource sfx complete
  if truthy table then
    match ddbQueryKey s table.name k with
    | .error e => .error e
    | .ok items =>
        match items with
        | [] => .ok none
        | first :: _ =>
            let header := ["table", "key", "value", "datetime_yyyymmdd"]
            let row := [complete, first.key, first.value, first.datetime]
            .ok (some (header :: List.replicate items.length row))
  else
    .ok none

/-- The backing table name `import_data_from_csv` derives from a CSV row's
first column (line 231): the suffix is appended unconditionally. -/
def importTableName (sfx r0 : String) : String :=
  r0 ++ sfx

/-- One iteration of the `import_data_from_csv` loop (lines 230-250) on one
CSV row: derive the table name, create the table when absent, read the
remaining columns, parse the date, put the item.  An error carries the store
as already mutated, since the raised exception does not roll anything
back. -/
def import_row (sfx : String) (s : Store) (row : List String) :
    Except (KsError × Store) Store :=
  match row[0]? with
  | none => .error (.indexError, s)
  | some r0 =>
      let table := importTableName sfx r0
      let s1 := if if_table_exists sfx s table then s
                else create_table sfx s table
      match row[1]? with
      | none => .error (.indexError, s1)
      | some k =>
          match row[2]? with
          | none => .error (.indexError, s1)
          | some v =>
              match row[3]? with
              | none => .error (.indexError, s1)
              | some dfield =>
                  match strptimeYMD dfield with
                  | none => .error (.valueError, s1)
                  | some (y, m, d) =>
                      let iso := isoOfYMD y m d
                      let handle := get_table_resource sfx table
                      match storePut s1 handle.name ⟨k, iso, v⟩ with
                      | some s2 => .ok s2
                      | none => .error (.resourceNotFound, s1)

/-- `DynamoDbTable.import_data_from_csv` (lines 226-253): the parsed CSV
rows are processed strictly sequentially; the first raised exception aborts
the remaining rows, keeping the store mutations already performed. -/
def import_data_from_csv (sfx : String) (s : Store) :
    List (List String) → Except (KsError × Store) Store
  | [] => .ok s
  | row :: rest =>
      match import_row sfx s row with
      | .ok s2 => import_data_from_csv sfx s2 rest
      | .error e => .error e

/-! ### Helper lemmas -/

theorem pyEndsWith_append (t u : String) : pyEndsWith (t ++ u) u = true := by
  simp [pyEndsWith, List.isSuffixOf_iff_suffix]

theorem get_complete_name_endsWith (sfx t : String) :
    pyEndsWith (get_complete_name sfx t) sfx = true := by
  unfold get_complete_name
  by_cases h : pyEndsWith t sfx
  · simp [h]
  · simp [h, pyEndsWith_append]

theorem get_complete_name_idem (sfx t : String) :
    get_complete_name sfx (get_complete_name sfx t) = get_complete_name sfx t := by
  by_cases h : pyEndsWith t sfx
  · simp [get_complete_name, h]
  · simp [get_complete_name, h, pyEndsWith_append]

theorem string_ne_append_of_ne_empty (t u : String) (h : u ≠ "") :
    t ≠ t ++ u := by
  intro he
  apply h
  have hd := congrArg String.data he
  rw [String.data_append] at hd
  have hu : u.data = [] := List.self_eq_append_right.mp hd
  cases u with
  | mk d => cases hu; rfl

theorem map_eq_self_forall {α : Type} (l : List α) (f : α → α)
    (h : l.map f = l) : ∀ c ∈ l, f c = c := by
  induction l with
  | nil => simp
  | cons a t ih =>
    simp only [List.map_cons, List.cons.injEq] at h
    intro c hc
    rcases List.mem_cons.mp hc with h1 | h1
    · subst h1; exact h.1
    · exact ih h.2 c h1

theorem toLower_ne_of_isUpper (c : Char) (h : c.isUpper = true) :
    c.toLower ≠ c := by
  simp [Char.isUpper] at h
  obtain ⟨h1, h2⟩ := h
  have h1n : 65 ≤ c.toNat := h1
  have h2n : c.toNat ≤ 90 := h2
  unfold Char.toLower
  rw [if_pos ⟨h1n, h2n⟩]
  intro heq
  have hc := congrArg Char.toNat heq
  have hv : (c.toNat + 32).isValidChar := Or.inl (by omega)
  rw [Char.ofNat, dif_pos hv] at hc
  simp [Char.ofNatAux, Char.toNat, UInt32.toNat] at hc

theorem pyLower_ne_of_hasUpper (n : String) (h : ∃ c ∈ n.data, c.isUpper) :
    pyLower n ≠ n := by
  obtain ⟨c, hc, hcu⟩ := h
  intro he
  have hd := congrArg String.data he
  have hmap : n.data.map Char.toLower = n.data := hd
  exact toLower_ne_of_isUpper c hcu (map_eq_self_forall n.data Char.toLower hmap c hc)

theorem pyLower_length (n : String) : (pyLower n).data.length = n.data.length := by
  simp [pyLower]

theorem pyEndsWith_pyLower (n sfx : String) (hs : pyLower sfx = sfx)
    (h : pyEndsWith n sfx = true) : pyEndsWith (pyLower n) sfx = true := by
  unfold pyEndsWith at h ⊢
  rw [List.isSuffixOf_iff_suffix] at h ⊢
  have hm := h.map Char.toLower
  have hsd : sfx.data.map Char.toLower = sfx.data := congrArg String.data hs
  rw [hsd] at hm
  exact hm

/-- In the descending sort, every later element has `datetime` at most the
earlier one's. -/
theorem sortDesc_pairwise (l : List Item) :
    (sortDesc l).Pairwise (fun a b => b.datetime ≤ a.datetime) := by
  have h := @List.sorted_mergeSort Item
    (fun a b : Item => decide (b.datetime ≤ a.datetime))
    (fun a b c h1 h2 => by
      simp only [decide_eq_true_eq] at *
      exact le_trans h2 h1)
    (fun a b => by
      rcases le_total a.datetime b.datetime with h | h <;> simp [h])
    l
  exact h.imp (fun hab => by simpa using hab)

theorem sortDesc_perm (l : List Item) : List.Perm (sortDesc l) l :=
  List.mergeSort_perm l _

theorem mem_sortDesc {a : Item} {l : List Item} : a ∈ sortDesc l ↔ a ∈ l :=
  List.mem_mergeSort

theorem sortDesc_eq_nil_iff (l : List Item) : sortDesc l = [] ↔ l = [] := by
  constructor
  · intro h
    have hp := sortDesc_perm l
    rw [h] at hp
    exact hp.symm.eq_nil
  · intro h
    subst h
    simp [sortDesc]

/-- The head of the descending sort is a member with maximal `datetime`. -/
theorem sortDesc_head_max (l : List Item) (first : Item) (rest : List Item)
    (h : sortDesc l = first :: rest) :
    first ∈ l ∧ ∀ it ∈ l, it.datetime ≤ first.datetime := by
  have hmem : first ∈ l := mem_sortDesc.mp (h ▸ List.mem_cons_self first rest)
  refine ⟨hmem, ?_⟩
  intro it hit
  have hin : it ∈ first :: rest := h ▸ mem_sortDesc.mpr hit
  rcases List.mem_cons.mp hin with h1 | h1
  · subst h1; exact le_refl _
  · have hp := sortDesc_pairwise l
    rw [h] at hp
    exact (List.pairwise_cons.mp hp).1 it h1

theorem lookupTable_eq_none_iff (s : Store) (n : String) :
    lookupTable s n = none ↔ n ∉ tableNames s := by
  unfold lookupTable tableNames
  rw [Option.map_eq_none', List.find?_eq_none]
  constructor
  · intro h hm
    obtain ⟨p, hp, hpn⟩ := List.mem_map.mp hm
    have hx := h p hp
    simp only [decide_eq_true_eq] at hx
    exact hx hpn
  · intro h x hx
    simp only [decide_eq_true_eq]
    intro he
    exact h (List.mem_map.mpr ⟨x, hx, he⟩)

/-- Concrete evaluation of `sortDesc` on a two-element list. -/
theorem sortDesc_pair (a b : Item) :
    sortDesc [a, b] = if b.datetime ≤ a.datetime then [a, b] else [b, a] := by
  unfold sortDesc
  rw [List.mergeSort]
  by_cases h : b.datetime ≤ a.datetime
  · simp [List.splitInTwo, List.splitAt, List.splitAt.go, List.merge, h]
    intro hlt
    exact absurd hlt (not_lt.mpr (String.le_iff_toList_le.mp h))
  · simp [List.splitInTwo, List.splitAt, List.splitAt.go, List.merge, h]
    intro hle
    exact absurd (String.le_iff_toList_le.mpr hle) h

theorem lookupTable_cons (p : String × List Item) (s : Store) (n : String) :
    lookupTable (p :: s) n = if p.1 = n then some p.2 else lookupTable s n := by
  by_cases h : p.1 = n
  · simp [lookupTable, List.find?_cons_of_pos, h]
  · simp [lookupTable, h, List.find?_cons_of_neg]

/-- `storePut`'s store update leaves lookup of the written table pointing to
the updated item list. -/
theorem lookupTable_map_update (s : Store) (B : String)
    (g : List Item → List Item) (tbl : List Item)
    (h : lookupTable s B = some tbl) :
    lookupTable (s.map (fun p => if p.1 = B then (p.1, g p.2) else p)) B =
      some (g tbl) := by
  induction s with
  | nil => cases h
  | cons p rest ih =>
    rw [lookupTable_cons] at h
    by_cases hp : p.1 = B
    · rw [if_pos hp] at h
      have htbl : p.2 = tbl := Option.some.inj h
      simp only [List.map_cons, if_pos hp, lookupTable_cons, htbl]
    · rw [if_neg hp] at h
      simp only [List.map_cons, if_neg hp, lookupTable_cons, if_neg hp]
      exact ih h

theorem lookupTable_mem (s : Store) (n : String) (t : List Item)
    (h : lookupTable s n = some t) : n ∈ tableNames s := by
  by_contra hn
  rw [← lookupTable_eq_none_iff] at hn
  rw [h] at hn
  cases hn

/-- `get_latest_item_value` on an existing backing table returns the head
value of the descending query, or `none` when no item matches the key. -/
theorem getLatest_of_lookup (sfx t k : String) (s : Store) (tbl : List Item)
    (ht : lookupTable s (get_complete_name sfx t) = some tbl) :
    get_latest_item_value sfx s t k =
      match sortDesc (tbl.filter (fun it => decide (it.key = k))) with
      | [] => .ok none
      | first :: _ => .ok (some first.value) := by
  simp only [get_latest_item_value, get_table_resource, truthy, if_true,
    get_complete_name_idem, ddbQueryKey, ht]
  cases hits : sortDesc (tbl.filter (fun it => decide (it.key = k))) with
  | nil => rfl
  | cons f r => rfl

/-! ### Claims -/

/-- C6: the name-resolution function `get_complete_name` appends the active
environment suffix iff the supplied name does not already end with that
suffix, and resolution is idempotent. -/
theorem keystore_C6 (sfx t : String) (hs : sfx = "_dev" ∨ sfx = "_prod") :
    (get_complete_name sfx t = t ++ sfx ↔ pyEndsWith t sfx = false) ∧
    get_complete_name sfx (get_complete_name sfx t) = get_complete_name sfx t := by
  refine ⟨?_, get_complete_name_idem sfx t⟩
  have hne : sfx ≠ "" := by
    rcases hs with h | h <;> subst h <;> decide
  constructor
  · intro h
    cases hpe : pyEndsWith t sfx
    · rfl
    · rw [get_complete_name, if_pos hpe] at h
      exact absurd h (string_ne_append_of_ne_empty t sfx hne)
  · intro h
    rw [get_complete_name, if_neg (by simp [h])]

/-- Witness for C6 at suffix `"_dev"` and name `"orders"`. -/
theorem keystore_C6_witness :
    (get_complete_name "_dev" "orders" = "orders" ++ "_dev" ↔
      pyEndsWith "orders" "_dev" = false) ∧
    get_complete_name "_dev" (get_complete_name "_dev" "orders") =
      get_complete_name "_dev" "orders" :=
  keystore_C6 "_dev" "orders" (Or.inl rfl)

/-- C4 counterexample: for the CSV import operation, a base name already
carrying the active suffix gets the suffix appended a second time — the row
`["orders_dev", "k", "v", "20230101"]` imports into the backing table
`"orders_dev_dev"`, not `"orders_dev"`. -/
theorem keystore_C4_cex :
    pyEndsWith "orders_dev" "_dev" = true ∧
    importTableName "_dev" "orders_dev" ≠ "orders_dev" ∧
    import_data_from_csv "_dev" [] [["orders_dev", "k", "v", "20230101"]] =
      .ok [("orders_dev_dev", [⟨"k", "2023-01-01T00:00:00", "v"⟩])] := by
  refine ⟨by decide, by decide, ?_⟩
  rfl

/-- C4 (amended): table creation and item write resolve the backing name as
`get_complete_name` of the lowercased supplied name, so the suffix is not
appended a second time when already present; but CSV import appends the
suffix to the row's base name unconditionally (line 231), so a base name
already ending with the active suffix receives it twice. -/
theorem keystore_C4_amended (sfx t b : String) (s : Store) :
    (if_table_exists sfx s (pyLower t) = false →
      tableNames (create_table sfx s t) =
        tableNames s ++ [get_complete_name sfx (pyLower t)]) ∧
    (pyEndsWith (pyLower t) sfx = true →
      get_complete_name sfx (pyLower t) = pyLower t) ∧
    (get_table_resource sfx (get_complete_name sfx (pyLower t))).name =
      get_complete_name sfx (pyLower t) ∧
    importTableName sfx b = b ++ sfx := by
  refine ⟨?_, ?_, ?_, rfl⟩
  · intro h
    simp only [create_table, h, Bool.false_eq_true, if_false,
      storeCreate, tableNames, List.map_append]
    rfl
  · intro h
    rw [get_complete_name, if_pos h]
  · simp [get_table_resource, get_complete_name_idem]

/-- Witness for the amended C4 at suffix `"_dev"`, supplied name
`"widgets_dev"` (already suffixed) and import base `"orders"`. -/
theorem keystore_C4_amended_witness :
    (if_table_exists "_dev" [] (pyLower "widgets_dev") = false →
      tableNames (create_table "_dev" [] "widgets_dev") =
        tableNames [] ++ [get_complete_name "_dev" (pyLower "widgets_dev")]) ∧
    (pyEndsWith (pyLower "widgets_dev") "_dev" = true →
      get_complete_name "_dev" (pyLower "widgets_dev") = pyLower "widgets_dev") ∧
    (get_table_resource "_dev" (get_complete_name "_dev" (pyLower "widgets_dev"))).name =
      get_complete_name "_dev" (pyLower "widgets_dev") ∧
    importTableName "_dev" "orders" = "orders" ++ "_dev" :=
  keystore_C4_amended "_dev" "widgets_dev" "orders" []

/-- C5 counterexample: `create_table` lowercases the supplied name while
`if_table_exists` does not, so immediately after creating `"Orders"` the
existence check for `"Orders"` is false. -/
theorem keystore_C5_cex :
    if_table_exists "_dev" (create_table "_dev" [] "Orders") "Orders" = false := by
  decide

/-- C5 (amended): for supplied names that are already lowercase, creating a
table makes the existence check true; deleting a table makes the existence
check false — and this delete direction holds for every name, since neither
`delete_table` nor `if_table_exists` lowercases. -/
theorem keystore_C5_amended (sfx t : String) (s : Store) :
    (pyLower t = t → if_table_exists sfx (create_table sfx s t) t = true) ∧
    if_table_exists sfx (delete_table sfx s t) t = false := by
  constructor
  · intro hl
    rw [create_table]
    simp only [hl]
    by_cases h : if_table_exists sfx s t
    · simp [h]
    · simp only [h, Bool.false_eq_true, if_false]
      simp [if_table_exists, storeCreate, tableNames, List.map_append]
  · rw [delete_table]
    by_cases h : if_table_exists sfx s t
    · simp only [h, if_true]
      simp only [if_table_exists, storeDelete, tableNames, decide_eq_false_iff_not]
      intro hm
      obtain ⟨p, hp, hpn⟩ := List.mem_map.mp hm
      have hf := (List.mem_filter.mp hp).2
      simp only [decide_eq_true_eq] at hf
      exact hf hpn
    · simp [h]

/-- Witness for the amended C5 at suffix `"_dev"`, name `"orders"`, empty
store. -/
theorem keystore_C5_amended_witness :
    if_table_exists "_dev" (create_table "_dev" [] "orders") "orders" = true ∧
    if_table_exists "_dev" (delete_table "_dev" [] "orders") "orders" = false :=
  ⟨(keystore_C5_amended "_dev" "orders" []).1 (by decide),
   (keystore_C5_amended "_dev" "orders" []).2⟩

/-- C9: `get_table_resource` returns a handle without checking existence and
the handle is always truthy, so the missing-table branches of the item
operations are unreachable: on an absent backing table each operation
attempts the remote call and the remote service's `resourceNotFound` error
propagates instead of a logged `None` return. -/
theorem keystore_C9 (sfx n k v now dstr : String) (s : Store) (y m d : Nat)
    (hput : lookupTable s (get_complete_name sfx (pyLower n)) = none)
    (hread : lookupTable s (get_complete_name sfx n) = none)
    (hd : strptimeYMD dstr = some (y, m, d)) :
    truthy (get_table_resource sfx n) = true ∧
    put_item_into_table sfx s n k v now = .error .resourceNotFound ∧
    get_latest_item_value sfx s n k = .error .resourceNotFound ∧
    get_items_greater_than_date sfx s n k dstr = .error .resourceNotFound ∧
    export_data_to_csv sfx s n k = .error .resourceNotFound := by
  have hmemw : get_complete_name sfx (pyLower n) ∉ tableNames s :=
    (lookupTable_eq_none_iff s _).mp hput
  refine ⟨rfl, ?_, ?_, ?_, ?_⟩
  · simp [put_item_into_table, get_table_resource, truthy,
      get_complete_name_idem, storePut, hmemw]
  · simp [get_latest_item_value, get_table_resource, truthy,
      get_complete_name_idem, ddbQueryKey, hread]
  · simp [get_items_greater_than_date, hd, get_table_resource, truthy,
      get_complete_name_idem, ddbQueryKeyGte, hread]
  · simp [export_data_to_csv, get_table_resource, truthy,
      get_complete_name_idem, ddbQueryKey, hread]

/-- Witness for C9: empty store, name `"orders"`, date `"20230101"`. -/
theorem keystore_C9_witness :
    truthy (get_table_resource "_dev" "orders") = true ∧
    put_item_into_table "_dev" [] "orders" "k" "v" "2023-06-01T12:00:00-05:00" =
      .error .resourceNotFound ∧
    get_latest_item_value "_dev" [] "orders" "k" = .error .resourceNotFound ∧
    get_items_greater_than_date "_dev" [] "orders" "k" "20230101" =
      .error .resourceNotFound ∧
    export_data_to_csv "_dev" [] "orders" "k" = .error .resourceNotFound :=
  keystore_C9 "_dev" "orders" "k" "v" "2023-06-01T12:00:00-05:00" "20230101"
    [] 2023 1 1 rfl rfl rfl

/-- C7 counterexample: on a store without the backing table, `putItem` does
not log-and-return-nothing-without-writing — the remote service's error
propagates instead. -/
theorem keystore_C7_cex :
    put_item_into_table "_dev" [] "orders" "k" "v" "2023-06-01T12:00:00-05:00" =
      .error .resourceNotFound ∧
    put_item_into_table "_dev" [] "orders" "k" "v" "2023-06-01T12:00:00-05:00" ≠
      .ok ([], none) := by
  have h1 : put_item_into_table "_dev" [] "orders" "k" "v"
      "2023-06-01T12:00:00-05:00" = .error .resourceNotFound := rfl
  refine ⟨h1, fun h => ?_⟩
  rw [h1] at h
  exact Except.noConfusion h

/-- C7 (amended): the table resource handle is always obtained (truthy), so
the log-and-return-nothing branch never runs; when the backing table exists,
`putItem` writes exactly one item of shape `{key, datetime := now,
info.value}` (`now` being the write-time US/Central ISO-8601 timestamp,
passed explicitly here) replacing only an item with the same primary key,
and returns the write acknowledgment; when the backing table is absent the
remote error propagates. -/
theorem keystore_C7_amended (sfx n k v now : String) (s : Store)
    (tbl : List Item) :
    truthy (get_table_resource sfx (get_complete_name sfx (pyLower n))) = true ∧
    (lookupTable s (get_complete_name sfx (pyLower n)) = some tbl →
      put_item_into_table sfx s n k v now =
        .ok (s.map (fun p =>
          if p.1 = get_complete_name sfx (pyLower n)
          then (p.1, tablePut p.2 ⟨k, now, v⟩) else p), some ())) ∧
    (lookupTable s (get_complete_name sfx (pyLower n)) = none →
      put_item_into_table sfx s n k v now = .error .resourceNotFound) ∧
    (⟨k, now, v⟩ : Item) ∈ tablePut tbl ⟨k, now, v⟩ ∧
    (∀ it ∈ tablePut tbl ⟨k, now, v⟩, it = ⟨k, now, v⟩ ∨ it ∈ tbl) := by
  refine ⟨rfl, ?_, ?_, List.mem_cons_self _ _, ?_⟩
  · intro h
    have hmem : get_complete_name sfx (pyLower n) ∈ tableNames s :=
      lookupTable_mem s _ tbl h
    simp [put_item_into_table, get_table_resource, truthy,
      get_complete_name_idem, storePut, hmem]
  · intro h
    have hmem : get_complete_name sfx (pyLower n) ∉ tableNames s :=
      (lookupTable_eq_none_iff s _).mp h
    simp [put_item_into_table, get_table_resource, truthy,
      get_complete_name_idem, storePut, hmem]
  · intro it hit
    rcases List.mem_cons.mp hit with h1 | h1
    · exact Or.inl h1
    · exact Or.inr (List.mem_of_mem_filter h1)

/-- Witness for the amended C7: store with one existing table
`"orders_dev"`. -/
theorem keystore_C7_amended_witness :
    truthy (get_table_resource "_dev"
      (get_complete_name "_dev" (pyLower "orders"))) = true ∧
    (lookupTable [("orders_dev", [])]
        (get_complete_name "_dev" (pyLower "orders")) = some [] →
      put_item_into_table "_dev" [("orders_dev", [])] "orders" "k" "v"
          "2023-06-01T12:00:00-05:00" =
        .ok ([("orders_dev", [])].map (fun p =>
          if p.1 = get_complete_name "_dev" (pyLower "orders")
          then (p.1, tablePut p.2 ⟨"k", "2023-06-01T12:00:00-05:00", "v"⟩)
          else p), some ())) ∧
    (lookupTable [("orders_dev", [])]
        (get_complete_name "_dev" (pyLower "orders")) = none →
      put_item_into_table "_dev" [("orders_dev", [])] "orders" "k" "v"
          "2023-06-01T12:00:00-05:00" = .error .resourceNotFound) ∧
    (⟨"k", "2023-06-01T12:00:00-05:00", "v"⟩ : Item) ∈
      tablePut [] ⟨"k", "2023-06-01T12:00:00-05:00", "v"⟩ ∧
    (∀ it ∈ tablePut [] ⟨"k", "2023-06-01T12:00:00-05:00", "v"⟩,
      it = ⟨"k", "2023-06-01T12:00:00-05:00", "v"⟩ ∨ it ∈ ([] : List Item)) :=
  keystore_C7_amended "_dev" "orders" "k" "v" "2023-06-01T12:00:00-05:00"
    [("orders_dev", [])] []

/-- C10: `create_table` and `put_item_into_table` lowercase the supplied
name before resolving the backing name, while the read operations resolve
the supplied name as-is; for any name containing an (ASCII) uppercase
letter, the two resolved backing names differ, so writes and reads address
different backing tables. -/
theorem keystore_C10 (sfx n : String) (hs : sfx = "_dev" ∨ sfx = "_prod")
    (hu : ∃ c ∈ n.data, c.isUpper) :
    (get_table_resource sfx (get_complete_name sfx (pyLower n))).name =
      get_complete_name sfx (pyLower n) ∧
    (get_table_resource sfx (get_complete_name sfx n)).name =
      get_complete_name sfx n ∧
    get_complete_name sfx (pyLower n) ≠ get_complete_name sfx n := by
  refine ⟨by simp [get_table_resource, get_complete_name_idem],
    by simp [get_table_resource, get_complete_name_idem], ?_⟩
  have hne : pyLower n ≠ n := pyLower_ne_of_hasUpper n hu
  have hsl : pyLower sfx = sfx := by
    rcases hs with h | h <;> subst h <;> decide
  have hslen : sfx.data.length ≠ 0 := by
    rcases hs with h | h <;> subst h <;> decide
  by_cases h1 : pyEndsWith n sfx
  · have h2 : pyEndsWith (pyLower n) sfx = true := pyEndsWith_pyLower n sfx hsl h1
    rw [get_complete_name, if_pos h2, get_complete_name, if_pos h1]
    exact hne
  · by_cases h2 : pyEndsWith (pyLower n) sfx
    · rw [get_complete_name, if_pos h2, get_complete_name, if_neg h1]
      intro he
      have hd := congrArg (fun x : String => x.data.length) he
      simp only [String.data_append, List.length_append, pyLower,
        List.length_map] at hd
      omega
    · rw [get_complete_name, if_neg h2, get_complete_name, if_neg h1]
      intro he
      apply hne
      have hd := congrArg String.data he
      rw [String.data_append, String.data_append] at hd
      exact congrArg String.mk (List.append_inj' hd rfl).1

/-- Witness for C10 at suffix `"_dev"` and mixed-case name `"Orders"`. -/
theorem keystore_C10_witness :
    (get_table_resource "_dev" (get_complete_name "_dev" (pyLower "Orders"))).name =
      get_complete_name "_dev" (pyLower "Orders") ∧
    (get_table_resource "_dev" (get_complete_name "_dev" "Orders")).name =
      get_complete_name "_dev" "Orders" ∧
    get_complete_name "_dev" (pyLower "Orders") ≠ get_complete_name "_dev" "Orders" :=
  keystore_C10 "_dev" "Orders" (Or.inl rfl) (by decide)

/-- C2 counterexample: for a mixed-case table name the claim fails — with
backing table `"orders_dev"` existing, `putItem("Orders", "k", "v")`
succeeds (it writes to `"orders_dev"`), but the immediately following
`getLatestItemValue("Orders", "k")` queries the absent `"Orders_dev"` and
errors instead of returning `"v"`. -/
theorem keystore_C2_cex :
    put_item_into_table "_dev" [("orders_dev", [])] "Orders" "k" "v"
        "2023-06-01T12:00:00-05:00" =
      .ok ([("orders_dev",
        [⟨"k", "2023-06-01T12:00:00-05:00", "v"⟩])], some ()) ∧
    get_latest_item_value "_dev"
        [("orders_dev", [⟨"k", "2023-06-01T12:00:00-05:00", "v"⟩])]
        "Orders" "k" = .error .resourceNotFound := by
  exact ⟨rfl, rfl⟩

/-- C2 (amended): restricted to table names without uppercase letters
(`pyLower t = t`) and an existing backing table.  First part: after
`putItem(t, k, v)` stamped with a timestamp `now` at least as large as
every stored timestamp for `k`, `getLatestItemValue(t, k)` returns `v`.
Second part: in general `getLatestItemValue` returns the value of a stored
item for `k` whose `datetime` is greatest (the query sorts descending by
`datetime` and is limited to one result). -/
theorem keystore_C2_amended :
    (∀ (sfx t k v now : String) (s : Store) (tbl : List Item),
      pyLower t = t →
      lookupTable s (get_complete_name sfx t) = some tbl →
      (∀ it ∈ tbl, it.key = k → it.datetime ≤ now) →
      ∃ s2, put_item_into_table sfx s t k v now = .ok (s2, some ()) ∧
        get_latest_item_value sfx s2 t k = .ok (some v)) ∧
    (∀ (sfx t k : String) (s : Store) (tbl : List Item) (first : Item)
        (rest : List Item),
      lookupTable s (get_complete_name sfx t) = some tbl →
      sortDesc (tbl.filter (fun it => decide (it.key = k))) = first :: rest →
      get_latest_item_value sfx s t k = .ok (some first.value) ∧
      first ∈ tbl ∧ first.key = k ∧
      (∀ it ∈ tbl, it.key = k → it.datetime ≤ first.datetime)) := by
  constructor
  · intro sfx t k v now s tbl hl ht hmax
    have hmem : get_complete_name sfx t ∈ tableNames s :=
      lookupTable_mem s _ tbl ht
    refine ⟨s.map (fun p =>
      if p.1 = get_complete_name sfx t
      then (p.1, tablePut p.2 ⟨k, now, v⟩) else p), ?_, ?_⟩
    · simp only [put_item_into_table, hl, get_table_resource, truthy, if_true,
        get_complete_name_idem, storePut]
      rw [if_pos hmem]
    · have hlook2 := lookupTable_map_update s (get_complete_name sfx t)
        (fun x => tablePut x ⟨k, now, v⟩) tbl ht
      rw [getLatest_of_lookup sfx t k _ _ hlook2]
      have hfil : (tablePut tbl ⟨k, now, v⟩).filter
          (fun it => decide (it.key = k)) =
          (⟨k, now, v⟩ : Item) :: (tbl.filter (fun x =>
            decide (¬(x.key = k ∧ x.datetime = now)))).filter
              (fun it => decide (it.key = k)) := by
        simp [tablePut]
      rw [hfil]
      cases hsort : sortDesc ((⟨k, now, v⟩ : Item) :: (tbl.filter (fun x =>
          decide (¬(x.key = k ∧ x.datetime = now)))).filter
            (fun it => decide (it.key = k))) with
      | nil =>
        rw [sortDesc_eq_nil_iff] at hsort
        cases hsort
      | cons first rest =>
        have hm := sortDesc_head_max _ first rest hsort
        have hfirst : first = ⟨k, now, v⟩ := by
          rcases List.mem_cons.mp hm.1 with h1 | h1
          · exact h1
          · exfalso
            have h2 := List.mem_filter.mp h1
            have h3 := List.mem_filter.mp h2.1
            have hk : first.key = k := by
              have := h2.2
              simpa using this
            have hdne : first.datetime ≠ now := by
              have hx := h3.2
              simp only [decide_eq_true_eq] at hx
              exact fun hdd => hx ⟨hk, hdd⟩
            have hle1 : first.datetime ≤ now := hmax first h3.1 hk
            have hle2 : now ≤ first.datetime :=
              hm.2 ⟨k, now, v⟩ (List.mem_cons_self _ _)
            exact hdne (le_antisymm hle1 hle2)
        rw [hfirst]
  · intro sfx t k s tbl first rest ht hq
    have hm := sortDesc_head_max _ first rest hq
    have h1 := List.mem_filter.mp hm.1
    have hk : first.key = k := by
      have := h1.2
      simpa using this
    refine ⟨?_, h1.1, hk, ?_⟩
    · rw [getLatest_of_lookup sfx t k s tbl ht, hq]
    · intro it hit hitk
      exact hm.2 it (List.mem_filter.mpr ⟨hit, by simpa using hitk⟩)

/-- Witness for the amended C2: put into existing empty backing table
`"orders_dev"` then read back; and the general greatest-datetime read on a
one-item table. -/
theorem keystore_C2_amended_witness :
    (∃ s2, put_item_into_table "_dev" [("orders_dev", [])] "orders" "k" "v"
        "2023-06-01T12:00:00-05:00" = .ok (s2, some ()) ∧
      get_latest_item_value "_dev" s2 "orders" "k" = .ok (some "v")) ∧
    (get_latest_item_value "_dev"
        [("t_dev", [⟨"o1", "2023-01-01T00:00:00", "100"⟩])] "t" "o1" =
      .ok (some ((⟨"o1", "2023-01-01T00:00:00", "100"⟩ : Item).value)) ∧
      (⟨"o1", "2023-01-01T00:00:00", "100"⟩ : Item) ∈
        [(⟨"o1", "2023-01-01T00:00:00", "100"⟩ : Item)] ∧
      (⟨"o1", "2023-01-01T00:00:00", "100"⟩ : Item).key = "o1" ∧
      (∀ it ∈ [(⟨"o1", "2023-01-01T00:00:00", "100"⟩ : Item)], it.key = "o1" →
        it.datetime ≤ (⟨"o1", "2023-01-01T00:00:00", "100"⟩ : Item).datetime)) := by
  constructor
  · exact keystore_C2_amended.1 "_dev" "orders" "k" "v"
      "2023-06-01T12:00:00-05:00" [("orders_dev", [])] [] (by decide) rfl
      (by simp)
  · refine keystore_C2_amended.2 "_dev" "t" "o1"
      [("t_dev", [⟨"o1", "2023-01-01T00:00:00", "100"⟩])]
      [⟨"o1", "2023-01-01T00:00:00", "100"⟩]
      ⟨"o1", "2023-01-01T00:00:00", "100"⟩ [] rfl ?_
    rw [show ([⟨"o1", "2023-01-01T00:00:00", "100"⟩] : List Item).filter
        (fun it => decide (it.key = "o1")) =
        [⟨"o1", "2023-01-01T00:00:00", "100"⟩] from rfl]
    simp [sortDesc]

/-- C3: for an existing backing table and a date `D` that
`strptime(D, "%Y%m%d")` parses as `(y, m, d)`, the floor is the ISO-8601
timestamp `isoOfYMD y m d` with zero time-of-day and no timezone offset,
and the returned list holds exactly the stored items for `k` whose
`datetime` is lexically `≥` that floor, sorted descending by `datetime`;
when nothing matches, `None` comes back. -/
theorem keystore_C3 (sfx t k D : String) (s : Store) (y m d : Nat)
    (tbl : List Item)
    (hD : strptimeYMD D = some (y, m, d))
    (ht : lookupTable s (get_complete_name sfx t) = some tbl) :
    ∃ l, get_items_greater_than_date sfx s t k D =
        (if l.isEmpty then .ok none else .ok (some l)) ∧
      List.Perm l (tbl.filter (fun it =>
        decide (it.key = k ∧ isoOfYMD y m d ≤ it.datetime))) ∧
      l.Pairwise (fun a b => b.datetime ≤ a.datetime) ∧
      (∀ it, it ∈ l ↔ (it ∈ tbl ∧ it.key = k ∧ isoOfYMD y m d ≤ it.datetime)) := by
  refine ⟨sortDesc (tbl.filter (fun it =>
      decide (it.key = k ∧ isoOfYMD y m d ≤ it.datetime))), ?_,
    sortDesc_perm _, sortDesc_pairwise _, ?_⟩
  · simp only [get_items_greater_than_date, hD, get_table_resource, truthy,
      if_true, get_complete_name_idem, ddbQueryKeyGte, ht]
  · intro it
    rw [mem_sortDesc, List.mem_filter]
    simp

/-- Witness for C3: table `"t_dev"` with two items under `"o1"`, floor date
`"20230102"`. -/
theorem keystore_C3_witness :
    ∃ l, get_items_greater_than_date "_dev"
        [("t_dev", [⟨"o1", "2023-01-01T00:00:00", "100"⟩,
                    ⟨"o1", "2023-01-02T00:00:00", "150"⟩])] "t" "o1" "20230102" =
        (if l.isEmpty then .ok none else .ok (some l)) ∧
      List.Perm l (([⟨"o1", "2023-01-01T00:00:00", "100"⟩,
          ⟨"o1", "2023-01-02T00:00:00", "150"⟩] : List Item).filter (fun it =>
        decide (it.key = "o1" ∧ isoOfYMD 2023 1 2 ≤ it.datetime))) ∧
      l.Pairwise (fun a b => b.datetime ≤ a.datetime) ∧
      (∀ it, it ∈ l ↔ (it ∈ ([⟨"o1", "2023-01-01T00:00:00", "100"⟩,
          ⟨"o1", "2023-01-02T00:00:00", "150"⟩] : List Item) ∧
        it.key = "o1" ∧ isoOfYMD 2023 1 2 ≤ it.datetime)) :=
  keystore_C3 "_dev" "t" "o1" "20230102"
    [("t_dev", [⟨"o1", "2023-01-01T00:00:00", "100"⟩,
                ⟨"o1", "2023-01-02T00:00:00", "150"⟩])] 2023 1 2
    [⟨"o1", "2023-01-01T00:00:00", "100"⟩, ⟨"o1", "2023-01-02T00:00:00", "150"⟩]
    rfl rfl

/-- C1: when the backing table exists and the descending query for `k`
returns `first :: rest` (so `N = (first :: rest).length ≥ 1` items match),
the exported CSV is one header row followed by exactly `N` data rows, every
one of which repeats the complete table name and the first item's key,
value and datetime — the repeated-first-element defect of lines 273-277. -/
theorem keystore_C1 (sfx tableName k : String) (s : Store) (tbl : List Item)
    (first : Item) (rest : List Item)
    (ht : lookupTable s (get_complete_name sfx tableName) = some tbl)
    (hq : sortDesc (tbl.filter (fun it => decide (it.key = k))) = first :: rest) :
    ∃ csv, export_data_to_csv sfx s tableName k = .ok (some csv) ∧
      csv.head? = some ["table", "key", "value", "datetime_yyyymmdd"] ∧
      csv.tail.length = (first :: rest).length ∧
      ∀ r ∈ csv.tail,
        r = [get_complete_name sfx tableName, first.key, first.value,
             first.datetime] := by
  refine ⟨["table", "key", "value", "datetime_yyyymmdd"] ::
    List.replicate (first :: rest).length
      [get_complete_name sfx tableName, first.key, first.value, first.datetime],
    ?_, rfl, by simp, ?_⟩
  · simp [export_data_to_csv, get_table_resource, truthy,
      get_complete_name_idem, ddbQueryKey, ht, hq]
  · intro r hr
    exact List.eq_of_mem_replicate hr

/-- Witness for C1: table `"t_dev"` holding two items under key `"o1"`; the
CSV has two data rows, both carrying the newer item's value `"150"`. -/
theorem keystore_C1_witness :
    ∃ csv, export_data_to_csv "_dev"
        [("t_dev", [⟨"o1", "2023-01-01T00:00:00", "100"⟩,
                    ⟨"o1", "2023-01-02T00:00:00", "150"⟩])] "t" "o1" =
      .ok (some csv) ∧
      csv.head? = some ["table", "key", "value", "datetime_yyyymmdd"] ∧
      csv.tail.length =
        ((⟨"o1", "2023-01-02T00:00:00", "150"⟩ : Item) ::
          [⟨"o1", "2023-01-01T00:00:00", "100"⟩]).length ∧
      ∀ r ∈ csv.tail,
        r = [get_complete_name "_dev" "t", "o1", "150",
             "2023-01-02T00:00:00"] :=
  by
  refine keystore_C1 "_dev" "t" "o1"
    [("t_dev", [⟨"o1", "2023-01-01T00:00:00", "100"⟩,
                ⟨"o1", "2023-01-02T00:00:00", "150"⟩])]
    [⟨"o1", "2023-01-01T00:00:00", "100"⟩, ⟨"o1", "2023-01-02T00:00:00", "150"⟩]
    ⟨"o1", "2023-01-02T00:00:00", "150"⟩
    [⟨"o1", "2023-01-01T00:00:00", "100"⟩]
    rfl ?_
  have hcmp : ¬ ((⟨"o1", "2023-01-02T00:00:00", "150"⟩ : Item).datetime ≤
      (⟨"o1", "2023-01-01T00:00:00", "100"⟩ : Item).datetime) := by
    rw [String.le_iff_toList_le]
    decide
  rw [show ([⟨"o1", "2023-01-01T00:00:00", "100"⟩,
      ⟨"o1", "2023-01-02T00:00:00", "150"⟩] : List Item).filter
        (fun it => decide (it.key = "o1")) =
      [⟨"o1", "2023-01-01T00:00:00", "100"⟩,
       ⟨"o1", "2023-01-02T00:00:00", "150"⟩] from rfl,
    sortDesc_pair, if_neg hcmp]

/-- C8 counterexample: a row with five columns has a wrong column count
(the CSV format is four columns) yet raises no error — the extra column is
silently ignored and the import succeeds. -/
theorem keystore_C8_cex :
    (["t", "k", "v", "20230101", "extra"] : List String).length ≠ 4 ∧
    import_data_from_csv "_dev" [] [["t", "k", "v", "20230101", "extra"]] =
      .ok [("t_dev", [⟨"k", "2023-01-01T00:00:00", "v"⟩])] :=
  ⟨by decide, rfl⟩

/-- C8 (amended): rows are processed strictly sequentially, and a row with
fewer than four columns (IndexError) or an unparsable/invalid date
(ValueError) aborts all subsequent rows while every store mutation from
earlier rows persists — no rollback; but a row with more than four columns
raises nothing (the extra columns are ignored). -/
theorem keystore_C8_amended :
    (∀ (sfx : String) (s sg : Store) (good : List (List String))
        (bad : List String) (rest : List (List String)) (e : KsError × Store),
      import_data_from_csv sfx s good = .ok sg →
      import_row sfx sg bad = .error e →
      import_data_from_csv sfx s (good ++ bad :: rest) = .error e) ∧
    (∀ (sfx : String) (s : Store) (row : List String),
      row.length < 4 →
      ∃ st, import_row sfx s row = .error (.indexError, st)) ∧
    (∀ (sfx a b c dstr : String) (s : Store) (extra : List String),
      strptimeYMD dstr = none →
      ∃ st, import_row sfx s (a :: b :: c :: dstr :: extra) =
        .error (.valueError, st)) := by
  refine ⟨?_, ?_, ?_⟩
  · intro sfx s sg good bad rest e
    induction good generalizing s with
    | nil =>
      intro h1 h2
      have hs : s = sg := Except.ok.inj h1
      subst hs
      simp only [List.nil_append, import_data_from_csv, h2]
    | cons r g ih =>
      intro h1 h2
      rw [import_data_from_csv] at h1
      cases hr : import_row sfx s r with
      | ok s2 =>
        rw [hr] at h1
        rw [List.cons_append, import_data_from_csv, hr]
        exact ih s2 h1 h2
      | error ee =>
        rw [hr] at h1
        cases h1
  · intro sfx s row hlen
    match row with
    | [] => exact ⟨s, rfl⟩
    | [a] => exact ⟨_, rfl⟩
    | [a, b] => exact ⟨_, rfl⟩
    | [a, b, c] => exact ⟨_, rfl⟩
    | a :: b :: c :: d :: tail => simp at hlen; omega
  · intro sfx a b c dstr s extra hd
    refine ⟨if if_table_exists sfx s (importTableName sfx a) then s
            else create_table sfx s (importTableName sfx a), ?_⟩
    simp only [import_row, List.getElem?_cons_zero, List.getElem?_cons_succ, hd]

/-- Witness for the amended C8: importing a good row, then a one-column row
(IndexError), then a would-be-good row aborts at the second row with the
first row's write persisted; a four-column row with the malformed date
`"2023"` fails with ValueError. -/
theorem keystore_C8_amended_witness :
    import_data_from_csv "_dev" []
        ([["orders", "o1", "100", "20230101"]] ++
          ["orders"] :: [["orders", "o1", "150", "20230102"]]) =
      .error (.indexError,
        [("orders_dev", [⟨"o1", "2023-01-01T00:00:00", "100"⟩])]) ∧
    (∃ st, import_row "_dev" [] ["x"] = .error (.indexError, st)) ∧
    (∃ st, import_row "_dev" [] ["t", "k", "v", "2023"] =
      .error (.valueError, st)) :=
  ⟨keystore_C8_amended.1 "_dev" []
      [("orders_dev", [⟨"o1", "2023-01-01T00:00:00", "100"⟩])]
      [["orders", "o1", "100", "20230101"]] ["orders"]
      [["orders", "o1", "150", "20230102"]]
      (.indexError, [("orders_dev", [⟨"o1", "2023-01-01T00:00:00", "100"⟩])])
      rfl rfl,
    keystore_C8_amended.2.1 "_dev" [] ["x"] (by decide),
    keystore_C8_amended.2.2 "_dev" "t" "k" "v" "2023" [] [] rfl⟩

end Keystore
